import Mathlib

/-!
Shallow embedding of the gitwatch package (gitwatch.go and
cmd/gitwatch/main.go) together with a small model of the external
libraries it calls (Go standard library string and url functions, and the
go-git operations).  All definitions are executable; machine behaviour
that lives outside the repository (net/url, path/filepath, strings,
go-git) is modelled from its documented behaviour, restricted to the
class of inputs this program feeds it, and each such model carries a
doc comment saying so.
-/

namespace Gitwatch

/-- Models Go strings.Split with a single-character separator: the list of
maximal runs between occurrences of the separator, empty runs included. -/
def splitOnChar : List Char → Char → List (List Char)
  | [], _ => [[]]
  | x :: xs, c =>
    if x = c then [] :: splitOnChar xs c
    else
      match splitOnChar xs c with
      | [] => [[x]]
      | h :: t => (x :: h) :: t

/-- Models Go strings.Contains for a single character. -/
def containsChar : List Char → Char → Bool
  | [], _ => false
  | x :: xs, c => x = c || containsChar xs c

/-- Prefix of the character list strictly before the first occurrence of the
given character (the whole list when the character is absent). -/
def takeBeforeChar : List Char → Char → List Char
  | [], _ => []
  | x :: xs, c => if x = c then [] else x :: takeBeforeChar xs c

/-- Suffix of the character list from the first occurrence of the given
character (inclusive); empty when the character is absent. -/
def dropUntilChar : List Char → Char → List Char
  | [], _ => []
  | x :: xs, c => if x = c then x :: xs else dropUntilChar xs c

/-- Models the scheme scanner of net/url (getScheme): scan characters,
returning (scheme, rest) when a valid scheme terminated by a colon is
found, ([], original) when the string has no scheme, and an error when
the string starts with a colon.  The accumulator holds the scheme
characters seen so far in reverse; it is empty exactly when no character
has been consumed. -/
def getSchemeAux (orig : List Char) : List Char → List Char → Except Unit (List Char × List Char)
  | _, [] => .ok ([], orig)
  | acc, c :: cs =>
    if c.isAlpha then getSchemeAux orig (c :: acc) cs
    else if c.isDigit || c = '+' || c = '-' || c = '.' then
      if acc.isEmpty then .ok ([], orig) else getSchemeAux orig (c :: acc) cs
    else if c = ':' then
      if acc.isEmpty then .error () else .ok (acc.reverse, cs)
    else .ok ([], orig)

/-- Models the Path component computed by net/url Parse for the locator
strings this package feeds it: the fragment and query are stripped, a
scheme-prefixed non-slash remainder is opaque (empty path), an
authority form consumes up to the first slash, and a scheme-less string
whose first path segment contains a colon is rejected ("first path
segment in URL cannot contain colon").  Percent-unescaping and host
validation are omitted: the program's inputs contain no escapes, so
Path and EscapedPath coincide on the modelled class. -/
def urlPathCore (s : List Char) : Except Unit (List Char) :=
  let noFrag := takeBeforeChar s '#'
  match getSchemeAux noFrag [] noFrag with
  | .error e => .error e
  | .ok (scheme, afterScheme) =>
    let rest := takeBeforeChar afterScheme '?'
    if rest.head? ≠ some '/' then
      if scheme ≠ [] then .ok []
      else if containsChar (takeBeforeChar rest '/') ':' then .error ()
      else .ok rest
    else if rest.take 2 = ['/', '/'] ∧ (scheme ≠ [] ∨ rest.take 3 ≠ ['/', '/', '/']) then
      .ok (dropUntilChar (rest.drop 2) '/')
    else .ok rest

/-- Models path/filepath Base on slash-separated paths: empty string gives
".", trailing slashes are dropped, an all-slash path gives "/",
otherwise the suffix after the last slash. -/
def filepathBaseCore (s : List Char) : List Char :=
  if s = [] then ['.']
  else
    let r := s.reverse.dropWhile (· = '/')
    if r = [] then ['/']
    else (r.takeWhile (· ≠ '/')).reverse

/-- Models path/filepath Base on strings. -/
def filepathBase (s : String) : String :=
  String.mk (filepathBaseCore s.data)

/-- Models filepath.Join root name for a non-empty already-clean root and
relative name, the only shape this package joins. -/
def filepathJoin (a b : String) : String :=
  if a = "" then b else a ++ "/" ++ b

/-- Embeds GetRepoDirectory (gitwatch.go): http-prefixed locators go
through url Parse and Base of the escaped path; otherwise the string is
split on every colon, the second field is used when the split has
exactly two fields and the first field otherwise, and that field goes
through url Parse and Base of the path. -/
def GetRepoDirectoryCore (repo : List Char) : Except Unit (List Char) :=
  if ['h', 't', 't', 'p'].isPrefixOf repo then
    match urlPathCore repo with
    | .error e => .error e
    | .ok p => .ok (filepathBaseCore p)
  else
    let path := splitOnChar repo ':'
    let i := if path.length = 2 then 1 else 0
    match urlPathCore (path.getD i []) with
    | .error e => .error e
    | .ok p => .ok (filepathBaseCore p)

/-- Embeds GetRepoDirectory on strings. -/
def GetRepoDirectory (repo : String) : Except Unit String :=
  (GetRepoDirectoryCore repo.data).map String.mk

/-- Embeds the Repository struct (gitwatch.go).  The authentication method
is abstracted to an opaque token; fullPath is the unexported field
computed by hydrate. -/
structure Repository where
  URL : String
  Branch : String := ""
  Directory : String := ""
  Auth : Option Nat := none
  fullPath : String := ""
deriving Repr, DecidableEq

/-- Embeds MakeRepositoryList (cmd/gitwatch/main.go): each specification
string is split on every hash character; when a hash is present the URL
is the first field and the branch is the second field if non-empty,
otherwise "master"; without a hash the URL is the whole string and the
branch is "master". -/
def MakeRepositoryList (repos : List String) : List Repository :=
  repos.map fun repo =>
    if containsChar repo.data '#' then
      let path := splitOnChar repo.data '#'
      let url := String.mk (path.getD 0 [])
      let branch :=
        if (path.getD 1 []).length > 0 then String.mk (path.getD 1 []) else "master"
      { URL := url, Branch := branch }
    else { URL := repo, Branch := "master" }

/-- Embeds hydrate (gitwatch.go): when the repository names no directory,
derive one from the URL via GetRepoDirectory, then set fullPath to the
join of the session root and the directory. -/
def hydrate (root : String) (r : Repository) : Except Unit Repository :=
  if r.Directory = "" then
    match GetRepoDirectory r.URL with
    | .error e => .error e
    | .ok d => .ok { r with fullPath := filepathJoin root d }
  else .ok { r with fullPath := filepathJoin root r.Directory }

/-- Embeds hydrateRepos (gitwatch.go): hydrate each repository in order,
failing on the first error. -/
def hydrateRepos (root : String) : List Repository → Except Unit (List Repository)
  | [] => .ok []
  | r :: rest =>
    match hydrate root r with
    | .error e => .error e
    | .ok r2 =>
      match hydrateRepos root rest with
      | .error e => .error e
      | .ok rs => .ok (r2 :: rs)

/-- Embeds the Session struct (gitwatch.go).  Channels are modelled by
their capacities plus, for the unexported newRepos channel, whether it
was ever initialised (a Go channel field left out of a composite
literal keeps its zero value nil). -/
structure Session where
  repositories : List Repository
  interval : Nat
  directory : String
  auth : Option Nat
  initialEvent : Bool
  initialDoneCap : Nat
  eventsCap : Nat
  errorsCap : Nat
  running : Bool
  newReposInit : Bool

/-- Embeds New (gitwatch.go): hydrate the repositories, then build the
session with buffered Events (capacity len repos), Errors (capacity 16)
and InitialDone (capacity 1) channels.  The composite literal omits the
newRepos field, so that channel stays nil (newReposInit = false). -/
def New (repos : List Repository) (interval : Nat) (dir : String)
    (auth : Option Nat) (initialEvent : Bool) : Except Unit Session :=
  match hydrateRepos dir repos with
  | .error e => .error e
  | .ok r =>
    .ok { repositories := r
          interval := interval
          directory := dir
          auth := auth
          initialEvent := initialEvent
          initialDoneCap := 1
          eventsCap := repos.length
          errorsCap := 16
          running := false
          newReposInit := false }

/-- Embeds the first statement of Session.daemon (gitwatch.go), which sets
the running flag before anything else. -/
def startDaemon (s : Session) : Session :=
  { s with running := true }

/-- Possible outcomes of Session.Add (gitwatch.go): hydration failure,
direct append to the repository list (session not running), a completed
send on the newRepos channel, or a send that can never complete because
the channel is nil (a send on a nil Go channel blocks forever). -/
inductive AddOutcome
  | failed
  | appendedDirect
  | sent
  | blocksForever
deriving Repr, DecidableEq

/-- Embeds Session.Add (gitwatch.go): hydrate the repository; if the
session is running, send it on the newRepos channel (which blocks
forever when that channel was never initialised), otherwise append it
to the repository list. -/
def Add (s : Session) (r : Repository) : AddOutcome × Session :=
  match hydrate s.directory r with
  | .error _ => (.failed, s)
  | .ok r2 =>
    if s.running then
      if s.newReposInit then (.sent, s) else (.blocksForever, s)
    else (.appendedDirect, { s with repositories := s.repositories ++ [r2] })

/-- Embeds the reference-name construction shared by Session.cloneRepo and
Session.GetEventFromRepoChanges (gitwatch.go): refs/heads/branch when
the branch is non-empty, otherwise the zero ReferenceName (unset). -/
def gitReferenceName (branch : String) : Option String :=
  if branch ≠ "" then some ("refs/heads/" ++ branch) else none

/-- Models the branch selection of go-git PlainCloneContext and Pull: with
an explicit ReferenceName that branch is used; with the zero
ReferenceName the remote's default branch (its HEAD) is used. -/
def trackedBranch (branch : String) (remoteDefault : String) : String :=
  match gitReferenceName branch with
  | some ref => ref
  | none => "refs/heads/" ++ remoteDefault

/-- Commits are abstracted to naturals along a linear history: a local head
h can fast-forward to remote head c exactly when h < c. -/
abbrev Commit := Nat

/-- Errors surfaced by the modelled git operations and the scheduler.
The errors.Wrap calls in gitwatch.go only attach messages and preserve
the wrapped error for xerrors.Is, so wrapping is modelled as the
identity on the error kind. -/
inductive GErr
  | notExists
  | openFailed
  | eof
  | network
  | nonFastForward
  | ctxCanceled
deriving Repr, DecidableEq

/-- State of the local directory at one path: no repository, a directory
that exists but fails to open as a repository, or a clone with its
origin URL and head commit. -/
inductive LocalState
  | missing
  | corrupt
  | cloned (origin : String) (head : Commit)
deriving Repr, DecidableEq

/-- The file system and network as seen by the modelled git operations:
the local state at each path and, per remote URL, either the remote's
branch head or the transport failure reaching it. -/
structure GitWorld where
  locals : String → LocalState
  remotes : String → Except GErr Commit

/-- Replaces the local state at one path. -/
def setLocal (w : GitWorld) (p : String) (st : LocalState) : GitWorld :=
  { w with locals := fun q => if q = p then st else w.locals q }

/-- Embeds the Event struct (gitwatch.go); the commit carries the
timestamp in the source, so the event is abstracted to the origin URL,
the worktree path and the head commit. -/
structure Event where
  URL : String
  Path : String
  commit : Commit
deriving Repr, DecidableEq

/-- Embeds GetEventFromRepo (gitwatch.go): build the event from the origin
remote URL, the worktree root and the head commit of an open local
repository. -/
def GetEventFromRepo (origin path : String) (head : Commit) : Event :=
  { URL := origin, Path := path, commit := head }

/-- Embeds Session.cloneRepo (gitwatch.go) over the world model: a
reachable remote produces a fresh local clone at the remote head; a
transport failure is returned (wrapped in the source). -/
def cloneRepo (w : GitWorld) (url path : String) : GitWorld × Except GErr Commit :=
  match w.remotes url with
  | .error e => (w, .error e)
  | .ok c => (setLocal w path (.cloned url c), .ok c)

/-- Result of the modelled worktree Pull: already up to date, fast-forward
to a new head, or failure (transport failure or non-fast-forward). -/
inductive PullRes
  | upToDate
  | updated (c : Commit)
  | failed (e : GErr)
deriving Repr, DecidableEq

/-- Models go-git worktree Pull on a local clone: unreachable remote fails
with the transport error; an equal head is NoErrAlreadyUpToDate; a
strictly newer remote head fast-forwards; otherwise the histories have
diverged and the pull fails. -/
def pull (w : GitWorld) (origin : String) (head : Commit) : PullRes :=
  match w.remotes origin with
  | .error e => .failed e
  | .ok c => if c = head then .upToDate else if head < c then .updated c else .failed .nonFastForward

/-- Embeds Session.GetEventFromRepoChanges (gitwatch.go): pull the local
repository; NoErrAlreadyUpToDate yields no event, a successful pull
yields the event of the new head, and any other pull outcome is an
error (wrapped in the source). -/
def GetEventFromRepoChanges (w : GitWorld) (origin path : String) (head : Commit) :
    GitWorld × Except GErr (Option Event) :=
  match pull w origin head with
  | .upToDate => (w, .ok none)
  | .updated c => (setLocal w path (.cloned origin c), .ok (some (GetEventFromRepo origin path c)))
  | .failed e => (w, .error e)

/-- Embeds the non-initial tail of Session.checkRepo (gitwatch.go): check
for changes; on any pull error remove the whole local path
(os.RemoveAll), clone again, and on re-clone success return the event
of the fresh head unconditionally; a re-clone failure is returned. -/
def steadyCheck (w : GitWorld) (r : Repository) (origin : String) (head : Commit) :
    GitWorld × Except GErr (Option Event) :=
  match GetEventFromRepoChanges w origin r.fullPath head with
  | (w2, .ok evt) => (w2, .ok evt)
  | (w2, .error _) =>
    let w3 := setLocal w2 r.fullPath .missing
    match cloneRepo w3 r.URL r.fullPath with
    | (w4, .error e) => (w4, .error e)
    | (w4, .ok c) => (w4, .ok (some (GetEventFromRepo r.URL r.fullPath c)))

/-- Embeds Session.checkRepo (gitwatch.go): open the local path; a
non-NotExists open failure is an error; a missing local copy is cloned
first.  On the initial check an event for the current head is always
returned; otherwise the steady-state change check runs. -/
def checkRepo (r : Repository) (initial : Bool) (w : GitWorld) :
    GitWorld × Except GErr (Option Event) :=
  match w.locals r.fullPath with
  | .corrupt => (w, .error .openFailed)
  | .missing =>
    match cloneRepo w r.URL r.fullPath with
    | (w1, .error e) => (w1, .error e)
    | (w1, .ok c) =>
      if initial then (w1, .ok (some (GetEventFromRepo r.URL r.fullPath c)))
      else steadyCheck w1 r r.URL c
  | .cloned o h =>
    if initial then (w, .ok (some (GetEventFromRepo o r.fullPath h)))
    else steadyCheck w r o h

/-- Result of one pass of Session.checkRepos: the updated world, the
events emitted to the Events channel in registry order, and the first
error, if any, at which the pass stopped. -/
structure PassResult where
  world : GitWorld
  events : List Event
  err : Option GErr

/-- Embeds Session.checkRepos (gitwatch.go): check each repository in
registry order, emitting its event if any, and return at the first
error, leaving every later repository unchecked. -/
def checkRepos (rs : List Repository) (initial : Bool) (w : GitWorld) : PassResult :=
  match rs with
  | [] => ⟨w, [], none⟩
  | r :: rest =>
    match checkRepo r initial w with
    | (w1, .error e) => ⟨w1, [], some e⟩
    | (w1, .ok evt) =>
      let res := checkRepos rest initial w1
      ⟨res.world, evt.toList ++ res.events, res.err⟩

/-- Models xerrors.Is err io.EOF on the modelled error kinds (the wrap
calls in the source preserve the wrapped error). -/
def isEOF (e : GErr) : Bool := e = .eof

/-- External stimuli the daemon's select can observe: a ticker tick, the
context being cancelled, or a repository arriving on the newRepos
channel. -/
inductive Stim
  | tick
  | ctxDone
  | newRepo (r : Repository)

/-- Observable outcome of a daemon run: final world, final registry,
events emitted, errors pushed to the Errors channel, number of sends on
InitialDone, number of select iterations executed, and the value
returned by Run, none while the daemon is still looping. -/
structure RunResult where
  world : GitWorld
  repositories : List Repository
  events : List Event
  errPushes : List GErr
  doneSignals : Nat
  loopSteps : Nat
  ret : Option GErr

/-- Embeds the select loop of Session.daemon (gitwatch.go) over a finite
stimulus list: context cancellation returns the context error; a tick
runs a steady-state pass whose error, unless it matches io.EOF, is
pushed to the Errors channel; a newRepos arrival appends to the
registry (with the nil channel left by New this arm can never fire).
InitialDone has already been signalled once when the loop starts. -/
def daemonLoop (w : GitWorld) (rs : List Repository) (evs : List Event)
    (errp : List GErr) (steps : Nat) : List Stim → RunResult
  | [] => ⟨w, rs, evs, errp, 1, steps, none⟩
  | .ctxDone :: _ => ⟨w, rs, evs, errp, 1, steps + 1, some .ctxCanceled⟩
  | .tick :: rest =>
    let p := checkRepos rs false w
    match p.err with
    | none => daemonLoop p.world rs (evs ++ p.events) errp (steps + 1) rest
    | some e =>
      if isEOF e then daemonLoop p.world rs (evs ++ p.events) errp (steps + 1) rest
      else daemonLoop p.world rs (evs ++ p.events) (errp ++ [e]) (steps + 1) rest
  | .newRepo r :: rest => daemonLoop w (rs ++ [r]) evs errp (steps + 1) rest

/-- Embeds Session.daemon as called by Run (gitwatch.go): an initial pass
over all repositories with the InitialEvent flag; any error there is
returned directly, before InitialDone is signalled and before the
select loop starts; on success InitialDone is signalled exactly once
and the select loop runs. -/
def daemonRun (s : Session) (w : GitWorld) (stims : List Stim) : RunResult :=
  let p := checkRepos s.repositories s.initialEvent w
  match p.err with
  | some e => ⟨p.world, s.repositories, p.events, [], 0, 0, some e⟩
  | none => daemonLoop p.world s.repositories p.events [] 0 stims

/-- A locator remainder that net/url parses as a plain relative path: free
of colons, query and fragment markers, and not rooted at a slash. -/
def plainRel (t : List Char) : Prop :=
  containsChar t ':' = false ∧ containsChar t '?' = false ∧
    containsChar t '#' = false ∧ t.head? ≠ some '/'

instance (t : List Char) : Decidable (plainRel t) := by
  unfold plainRel
  infer_instance

/-- A world in which every existing local copy sits exactly at its origin
remote's head, and no local path is corrupt. -/
def calm (w : GitWorld) : Prop :=
  ∀ p, w.locals p = .missing ∨ ∃ o c, w.locals p = .cloned o c ∧ w.remotes o = .ok c

/-- Fixture: a repository at URL u whose hydrated full path is d/u. -/
def repoU : Repository :=
  { URL := "u", fullPath := "d/u" }

/-- Fixture: no local copies, every remote reachable at head 5. -/
def worldFresh : GitWorld :=
  { locals := fun _ => .missing, remotes := fun _ => .ok 5 }

/-- Fixture: the local copy of u is two commits behind its remote. -/
def worldBehind : GitWorld :=
  { locals := fun p => if p = "d/u" then .cloned "u" 3 else .missing
    remotes := fun _ => .ok 5 }

/-- Fixture: the local copy of u has diverged ahead of its remote, so a
pull cannot fast-forward. -/
def worldDiverged : GitWorld :=
  { locals := fun p => if p = "d/u" then .cloned "u" 9 else .missing
    remotes := fun _ => .ok 5 }

/-- Fixture: the local copy of u exists but every remote is unreachable. -/
def worldCut : GitWorld :=
  { locals := fun p => if p = "d/u" then .cloned "u" 9 else .missing
    remotes := fun _ => .error .network }

/-- Fixture: no local copies and every remote unreachable. -/
def worldDown : GitWorld :=
  { locals := fun _ => .missing, remotes := fun _ => .error .network }

/-- Fixture: no local copies and every transport failing with io.EOF. -/
def worldEOF : GitWorld :=
  { locals := fun _ => .missing, remotes := fun _ => .error .eof }

/-- Fixture: the session New builds for the single repository u under root
d with the InitialEvent flag unset. -/
def sessIEFalse : Session :=
  { repositories := [repoU]
    interval := 1
    directory := "d"
    auth := none
    initialEvent := false
    initialDoneCap := 1
    eventsCap := 1
    errorsCap := 16
    running := false
    newReposInit := false }

/-- Fixture: the session New builds for an empty repository list. -/
def sessEmpty : Session :=
  { repositories := []
    interval := 1
    directory := "d"
    auth := none
    initialEvent := false
    initialDoneCap := 1
    eventsCap := 0
    errorsCap := 16
    running := false
    newReposInit := false }

/-! Helper lemmas about the string models, shared by several claims. -/

theorem containsChar_eq_false_iff (cs : List Char) (c : Char) :
    containsChar cs c = false ↔ ∀ x ∈ cs, x ≠ c := by
  induction cs with
  | nil => simp [containsChar]
  | cons x xs ih => simp [containsChar, ih]

theorem takeBeforeChar_of_not_contains (cs : List Char) (c : Char)
    (h : containsChar cs c = false) : takeBeforeChar cs c = cs := by
  induction cs with
  | nil => rfl
  | cons x xs ih =>
    simp [containsChar] at h
    simp [takeBeforeChar, h.1, ih h.2]

theorem containsChar_takeBeforeChar (cs : List Char) (c c' : Char)
    (h : containsChar cs c' = false) :
    containsChar (takeBeforeChar cs c) c' = false := by
  induction cs with
  | nil => rfl
  | cons x xs ih =>
    simp [containsChar] at h
    by_cases hx : x = c
    · simp [takeBeforeChar, hx, containsChar]
    · simp [takeBeforeChar, hx, containsChar, h.1, ih h.2]

theorem getSchemeAux_no_colon : ∀ (cs acc orig : List Char),
    containsChar cs ':' = false → getSchemeAux orig acc cs = .ok ([], orig)
  | [], _, _, _ => rfl
  | c :: cs, acc, orig, h => by
    simp [containsChar] at h
    unfold getSchemeAux
    split_ifs with h1 h2 h3 h4
    · exact getSchemeAux_no_colon cs (c :: acc) orig h.2
    · rfl
    · exact getSchemeAux_no_colon cs (c :: acc) orig h.2
    · exact absurd h4 h.1
    · exact absurd h4 h.1
    · rfl

theorem urlPathCore_plain (t : List Char) (h : plainRel t) : urlPathCore t = .ok t := by
  obtain ⟨hc, hq, hf, hs⟩ := h
  simp only [urlPathCore, takeBeforeChar_of_not_contains t '#' hf,
    getSchemeAux_no_colon t [] t hc, takeBeforeChar_of_not_contains t '?' hq]
  rw [if_pos hs]
  simp [containsChar_takeBeforeChar t '/' ':' hc]

theorem splitOnChar_no_sep (t : List Char) (c : Char)
    (h : containsChar t c = false) : splitOnChar t c = [t] := by
  induction t with
  | nil => rfl
  | cons x xs ih =>
    simp [containsChar] at h
    simp [splitOnChar, h.1, ih h.2]

theorem splitOnChar_append (a t : List Char) (c : Char)
    (h : containsChar a c = false) :
    splitOnChar (a ++ c :: t) c = a :: splitOnChar t c := by
  induction a with
  | nil => simp [splitOnChar]
  | cons x xs ih =>
    simp [containsChar] at h
    rw [List.cons_append]
    simp only [splitOnChar, ih h.2]
    simp [h.1]

theorem containsChar_append_cons (xs ys : List Char) (c : Char) :
    containsChar (xs ++ c :: ys) c = true := by
  induction xs with
  | nil => simp [containsChar]
  | cons x rest ih => simp [containsChar, ih]

theorem stringMk_data (s : String) : String.mk s.data = s := rfl

/-- A run of checkRepo on a missing local copy with a reachable remote:
the copy is cloned and, since the pull right after the fresh clone is
already up to date, no event is produced. -/
theorem checkRepo_missing_ok (w : GitWorld) (r : Repository) (c : Commit)
    (hl : w.locals r.fullPath = .missing) (hr : w.remotes r.URL = .ok c) :
    checkRepo r false w = (setLocal w r.fullPath (.cloned r.URL c), .ok none) := by
  simp [checkRepo, hl, cloneRepo, hr, steadyCheck, GetEventFromRepoChanges, pull, setLocal]

/-- C1: the claim expects Session.Add after Run to forward the repository
through the scheduler's registration channel and succeed; but New's
composite literal never initialises the newRepos channel, so with the
session running Add sends on a nil channel and blocks forever, and the
repository is never registered.  This theorem evaluates the code at the
failing input. -/
theorem C1_add_after_run_blocks :
    (New [] 1 "d" none true).map
        (fun s => ((Add (startDaemon s) { URL := "u/v" }).1, s.newReposInit))
      = .ok (AddOutcome.blocksForever, false) := by
  rfl

/-- C2 counterexample: a repository whose local copy is missing on a
steady-state pass is cloned, but the claimed single event is not
emitted: the pull that follows the fresh clone reports already up to
date, so the check returns no event. -/
theorem C2_counterexample :
    (checkRepo repoU false worldFresh).2 = .ok none ∧
      (checkRepo repoU false worldFresh).1.locals "d/u" = .cloned "u" 5 := by
  constructor <;> rfl

/-- C3 counterexample: with initialEventFlag false the initial pass is not
silent for every starting state of the local copies: a local copy two
commits behind its remote makes the initial pass pull and emit one
event. -/
theorem C3_counterexample :
    New [{ URL := "u" }] 1 "d" none false = .ok sessIEFalse ∧
      sessIEFalse.initialEvent = false ∧
      (daemonRun sessIEFalse worldBehind []).events = [⟨"u", "d/u", 5⟩] := by
  refine ⟨rfl, rfl, rfl⟩

/-- C6 counterexample: on a locator with two colons GetRepoDirectory does
not split on the first colon and parse the remainder; strings.Split
yields three fields, so the code falls back to the field before the
first colon and returns its base, not the final segment of the
remainder. -/
theorem C6_counterexample :
    GetRepoDirectory "git@a.com:x:repo" = .ok "git@a.com" ∧
      ("git@a.com" : String) ≠ "repo" ∧ ("git@a.com" : String) ≠ "." := by
  refine ⟨rfl, by decide, by decide⟩

/-- C8 counterexample: a specification string with two hash characters is
not split on the first hash only; strings.Split yields three fields and
the branch is the second field, not the remainder after the first
hash. -/
theorem C8_counterexample :
    MakeRepositoryList ["u#b#c"] = [{ URL := "u", Branch := "b" }] ∧
      ("b" : String) ≠ "b#c" := by
  refine ⟨rfl, by decide⟩

/-- C9 counterexample: a Repository with an empty Branch is cloned and
pulled with the zero ReferenceName, so go-git tracks the remote's
default branch, not master: against a remote whose default branch is
develop the session tracks develop. -/
theorem C9_counterexample :
    gitReferenceName "" = none ∧
      trackedBranch "" "develop" = "refs/heads/develop" ∧
      trackedBranch "" "develop" ≠ "refs/heads/master" := by
  refine ⟨rfl, rfl, by decide⟩

/-- C9 amended: a non-empty Branch is tracked as refs/heads/branch by both
clone and pull; an empty Branch leaves the reference name unset, so
go-git tracks the remote's default branch, which coincides with master
exactly when master is the remote's default. -/
theorem C9_amended (b d : String) (hb : b ≠ "") :
    gitReferenceName b = some ("refs/heads/" ++ b) ∧
      trackedBranch b d = "refs/heads/" ++ b ∧
      trackedBranch "" d = "refs/heads/" ++ d ∧
      trackedBranch "" "master" = "refs/heads/master" := by
  refine ⟨by simp [gitReferenceName, hb], by simp [trackedBranch, gitReferenceName, hb], rfl, rfl⟩

/-- C9 amended, witnessed at branch dev against a remote defaulting to
main. -/
theorem C9_amended_witness :
    gitReferenceName "dev" = some ("refs/heads/" ++ "dev") ∧
      trackedBranch "dev" "main" = "refs/heads/" ++ "dev" ∧
      trackedBranch "" "main" = "refs/heads/" ++ "main" ∧
      trackedBranch "" "master" = "refs/heads/master" :=
  C9_amended "dev" "main" (by decide)

/-- C2 amended: a repository whose local copy is missing when a
steady-state pass checks it is cloned, and on clone success the check
emits no event, because the pull immediately following the fresh clone
reports already up to date. -/
theorem C2_amended (w : GitWorld) (r : Repository) (c : Commit)
    (hl : w.locals r.fullPath = .missing) (hr : w.remotes r.URL = .ok c) :
    checkRepo r false w = (setLocal w r.fullPath (.cloned r.URL c), .ok none) :=
  checkRepo_missing_ok w r c hl hr

/-- C2 amended, witnessed on a world with no local copies and every remote
at head 5. -/
theorem C2_amended_witness :
    worldFresh.locals repoU.fullPath = .missing ∧
      worldFresh.remotes repoU.URL = .ok 5 ∧
      checkRepo repoU false worldFresh =
        (setLocal worldFresh repoU.fullPath (.cloned repoU.URL 5), .ok none) :=
  ⟨rfl, rfl, C2_amended worldFresh repoU 5 rfl rfl⟩

/-- C4: an error in the initial pass is returned by Run directly: the
daemon returns it, InitialDone is never signalled, nothing is pushed to
the Errors channel, and the select loop is never entered. -/
theorem C4_initial_error_aborts (s : Session) (w : GitWorld) (stims : List Stim) (e : GErr)
    (h : (checkRepos s.repositories s.initialEvent w).err = some e) :
    (daemonRun s w stims).ret = some e ∧ (daemonRun s w stims).doneSignals = 0 ∧
      (daemonRun s w stims).errPushes = [] ∧ (daemonRun s w stims).loopSteps = 0 := by
  simp [daemonRun, h]

/-- C4, witnessed on a session whose single repository is missing locally
and whose remote is unreachable, so the initial clone fails. -/
theorem C4_witness :
    (checkRepos sessIEFalse.repositories sessIEFalse.initialEvent worldDown).err =
        some .network ∧
      (daemonRun sessIEFalse worldDown []).ret = some .network ∧
      (daemonRun sessIEFalse worldDown []).doneSignals = 0 ∧
      (daemonRun sessIEFalse worldDown []).errPushes = [] ∧
      (daemonRun sessIEFalse worldDown []).loopSteps = 0 :=
  ⟨rfl, C4_initial_error_aborts sessIEFalse worldDown [] .network rfl⟩

/-- C5: on a steady-state check of a repository whose pull fails (other
than already up to date), the whole local path is deleted and the
repository cloned again; on re-clone success exactly one event for the
fresh head is returned unconditionally; on re-clone failure the error
propagates (with the local copy left deleted), and a pass stops at that
repository with no events, leaving every later repository in registry
order unchecked on that tick. -/
theorem C5_pull_failure_recovery (w : GitWorld) (r : Repository) (h c : Commit) (e : GErr)
    (rest : List Repository) (hl : w.locals r.fullPath = .cloned r.URL h) :
    (w.remotes r.URL = .ok c → c ≠ h → ¬h < c →
        checkRepo r false w =
          (setLocal (setLocal w r.fullPath .missing) r.fullPath (.cloned r.URL c),
            .ok (some (GetEventFromRepo r.URL r.fullPath c)))) ∧
      (w.remotes r.URL = .error e →
        checkRepo r false w = (setLocal w r.fullPath .missing, .error e)) ∧
      (w.remotes r.URL = .error e →
        checkRepos (r :: rest) false w = ⟨setLocal w r.fullPath .missing, [], some e⟩) := by
  refine ⟨?_, ?_, ?_⟩
  · intro hr hne hnlt
    simp [checkRepo, hl, steadyCheck, GetEventFromRepoChanges, pull, hr, hne, hnlt,
      cloneRepo, setLocal]
  · intro hr
    simp [checkRepo, hl, steadyCheck, GetEventFromRepoChanges, pull, hr, cloneRepo, setLocal]
  · intro hr
    have h2 : checkRepo r false w = (setLocal w r.fullPath .missing, .error e) := by
      simp [checkRepo, hl, steadyCheck, GetEventFromRepoChanges, pull, hr, cloneRepo, setLocal]
    simp [checkRepos, h2]

/-- C5, witnessed on a diverged local copy with a reachable remote (delete,
re-clone, one event) and on a local copy whose remote is unreachable
(delete, re-clone failure, pass aborted before the second repository). -/
theorem C5_witness :
    worldDiverged.locals repoU.fullPath = .cloned repoU.URL 9 ∧
      checkRepo repoU false worldDiverged =
        (setLocal (setLocal worldDiverged repoU.fullPath .missing) repoU.fullPath
            (.cloned repoU.URL 5),
          .ok (some (GetEventFromRepo repoU.URL repoU.fullPath 5))) ∧
      checkRepo repoU false worldCut =
        (setLocal worldCut repoU.fullPath .missing, .error .network) ∧
      checkRepos [repoU, { URL := "v", fullPath := "d/v" }] false worldCut =
        ⟨setLocal worldCut repoU.fullPath .missing, [], some .network⟩ :=
  ⟨rfl,
    (C5_pull_failure_recovery worldDiverged repoU 9 5 .network [] rfl).1 rfl
      (by decide) (by decide),
    (C5_pull_failure_recovery worldCut repoU 9 5 .network
      [{ URL := "v", fullPath := "d/v" }] rfl).2.1 rfl,
    (C5_pull_failure_recovery worldCut repoU 9 5 .network
      [{ URL := "v", fullPath := "d/v" }] rfl).2.2 rfl⟩

/-- Once the select loop has started, the InitialDone counter stays at its
single signal forever. -/
theorem daemonLoop_doneSignals (stims : List Stim) : ∀ (w : GitWorld)
    (rs : List Repository) (evs : List Event) (errp : List GErr) (steps : Nat),
    (daemonLoop w rs evs errp steps stims).doneSignals = 1 := by
  induction stims with
  | nil => intro w rs evs errp steps; rfl
  | cons st rest ih =>
    intro w rs evs errp steps
    cases st with
    | ctxDone => rfl
    | newRepo r => exact ih _ _ _ _ _
    | tick =>
      simp only [daemonLoop]
      rcases hp : (checkRepos rs false w).err with _ | e
      · simp [ih]
      · by_cases he : isEOF e <;> simp [he, ih]

/-- C7: for a session built by New, InitialDone has capacity one and the
daemon signals it exactly once when the initial pass succeeds and never
when it fails; in particular the signal count never exceeds the buffer
capacity, so the single send cannot block the scheduler. -/
theorem C7_initial_done_once (repos : List Repository) (i : Nat) (dir : String)
    (auth : Option Nat) (flag : Bool) (s : Session) (w : GitWorld) (stims : List Stim)
    (hN : New repos i dir auth flag = .ok s) :
    s.initialDoneCap = 1 ∧
      (daemonRun s w stims).doneSignals =
        (if (checkRepos s.repositories s.initialEvent w).err = none then 1 else 0) ∧
      (daemonRun s w stims).doneSignals ≤ s.initialDoneCap := by
  have hcap : s.initialDoneCap = 1 := by
    unfold New at hN
    rcases hh : hydrateRepos dir repos with e | rs
    · rw [hh] at hN; cases hN
    · rw [hh] at hN
      injection hN with h2
      rw [← h2]
  have h2 : (daemonRun s w stims).doneSignals =
      (if (checkRepos s.repositories s.initialEvent w).err = none then 1 else 0) := by
    unfold daemonRun
    rcases hp : (checkRepos s.repositories s.initialEvent w).err with _ | e
    · simp [hp, daemonLoop_doneSignals]
    · simp [hp]
  refine ⟨hcap, h2, ?_⟩
  rw [h2, hcap]
  split <;> simp

/-- C7, witnessed on the session New builds for an empty repository list. -/
theorem C7_witness :
    sessEmpty.initialDoneCap = 1 ∧
      (daemonRun sessEmpty worldFresh []).doneSignals =
        (if (checkRepos sessEmpty.repositories sessEmpty.initialEvent worldFresh).err = none
          then 1 else 0) ∧
      (daemonRun sessEmpty worldFresh []).doneSignals ≤ sessEmpty.initialDoneCap :=
  C7_initial_done_once [] 1 "d" none false sessEmpty worldFresh [] rfl

/-- Errors matching io.EOF are never pushed to the Errors channel by the
select loop. -/
theorem daemonLoop_no_eof (stims : List Stim) : ∀ (w : GitWorld)
    (rs : List Repository) (evs : List Event) (errp : List GErr) (steps : Nat),
    GErr.eof ∉ errp → GErr.eof ∉ (daemonLoop w rs evs errp steps stims).errPushes := by
  induction stims with
  | nil => intro w rs evs errp steps hno; exact hno
  | cons st rest ih =>
    intro w rs evs errp steps hno
    cases st with
    | ctxDone => exact hno
    | newRepo r => exact ih _ _ _ _ _ hno
    | tick =>
      simp only [daemonLoop]
      rcases hp : (checkRepos rs false w).err with _ | e
      · exact ih _ _ _ _ _ hno
      · by_cases he : isEOF e
        · simp only [he, if_true]
          exact ih _ _ _ _ _ hno
        · simp only [he, if_false]
          refine ih _ _ _ _ _ ?_
          simp only [isEOF, decide_eq_true_eq] at he
          simp [List.mem_append, hno]
          intro hq
          exact he hq.symm

/-- C10: when a steady-state pass returns an error, the select loop
discards it silently if it matches io.EOF, continuing with the next
stimulus, neither pushing to the Errors channel (io.EOF never appears
among the pushes) nor aborting; any other pass error is pushed to the
Errors channel and the loop also continues. -/
theorem C10_eof_discarded (w : GitWorld) (rs : List Repository) (evs : List Event)
    (errp : List GErr) (steps : Nat) (stims : List Stim) (e : GErr)
    (hp : (checkRepos rs false w).err = some e) (hno : GErr.eof ∉ errp) :
    GErr.eof ∉ (daemonLoop w rs evs errp steps (.tick :: stims)).errPushes ∧
      (e = .eof →
        daemonLoop w rs evs errp steps (.tick :: stims) =
          daemonLoop (checkRepos rs false w).world rs
            (evs ++ (checkRepos rs false w).events) errp (steps + 1) stims) ∧
      (e ≠ .eof →
        daemonLoop w rs evs errp steps (.tick :: stims) =
          daemonLoop (checkRepos rs false w).world rs
            (evs ++ (checkRepos rs false w).events) (errp ++ [e]) (steps + 1) stims) := by
  refine ⟨daemonLoop_no_eof _ _ _ _ _ _ hno, ?_, ?_⟩
  · intro he
    subst he
    simp [daemonLoop, hp, isEOF]
  · intro he
    simp [daemonLoop, hp, isEOF, he]

/-- C10, witnessed on a pass whose clone fails with io.EOF: nothing is
pushed and the loop moves on to the remaining stimuli. -/
theorem C10_witness :
    GErr.eof ∉ (daemonLoop worldEOF [repoU] [] [] 0 [.tick]).errPushes ∧
      daemonLoop worldEOF [repoU] [] [] 0 [.tick] =
        daemonLoop (checkRepos [repoU] false worldEOF).world [repoU]
          ([] ++ (checkRepos [repoU] false worldEOF).events) [] (0 + 1) [] :=
  ⟨(C10_eof_discarded worldEOF [repoU] [] [] 0 [] .eof rfl (by simp)).1,
    (C10_eof_discarded worldEOF [repoU] [] [] 0 [] .eof rfl (by simp)).2.1 rfl⟩

/-- A steady-state check of one repository with a reachable remote in a
calm world: no event, no error, calmness preserved, the remotes
untouched, the repository's path left holding a clone, and every other
path either untouched or holding a clone. -/
theorem checkRepo_calm (w : GitWorld) (r : Repository) (c : Commit)
    (hw : calm w) (hr : w.remotes r.URL = .ok c) :
    (checkRepo r false w).2 = .ok none ∧
      calm (checkRepo r false w).1 ∧
      (checkRepo r false w).1.remotes = w.remotes ∧
      (∃ o hd, (checkRepo r false w).1.locals r.fullPath = .cloned o hd) ∧
      (∀ q, (checkRepo r false w).1.locals q = w.locals q ∨
        ∃ o hd, (checkRepo r false w).1.locals q = .cloned o hd) := by
  rcases hw r.fullPath with hm | ⟨o, hd, hcl, hro⟩
  · have key := checkRepo_missing_ok w r c hm hr
    rw [key]
    refine ⟨rfl, ?_, rfl, ⟨r.URL, c, by simp [setLocal]⟩, ?_⟩
    · intro q
      by_cases hq : q = r.fullPath
      · subst hq
        right
        exact ⟨r.URL, c, by simp [setLocal], hr⟩
      · have hloc : (setLocal w r.fullPath (.cloned r.URL c)).locals q = w.locals q := by
          simp [setLocal, hq]
        rw [hloc]
        exact hw q
    · intro q
      by_cases hq : q = r.fullPath
      · subst hq
        right
        exact ⟨r.URL, c, by simp [setLocal]⟩
      · left
        simp [setLocal, hq]
  · have key : checkRepo r false w = (w, .ok none) := by
      simp [checkRepo, hcl, steadyCheck, GetEventFromRepoChanges, pull, hro]
    rw [key]
    exact ⟨rfl, hw, rfl, ⟨o, hd, hcl⟩, fun q => Or.inl rfl⟩

/-- A whole steady-state pass in a calm world with reachable remotes: no
events, no error, calmness preserved, remotes untouched, every path
either untouched or cloned, and each listed repository's path left
holding a clone. -/
theorem checkRepos_calm : ∀ (rs : List Repository) (w : GitWorld),
    calm w → (∀ r ∈ rs, ∃ c, w.remotes r.URL = .ok c) →
    (checkRepos rs false w).events = [] ∧
      (checkRepos rs false w).err = none ∧
      calm (checkRepos rs false w).world ∧
      (checkRepos rs false w).world.remotes = w.remotes ∧
      (∀ q, (checkRepos rs false w).world.locals q = w.locals q ∨
        ∃ o hd, (checkRepos rs false w).world.locals q = .cloned o hd) ∧
      (∀ r2 ∈ rs, ∃ o hd,
        (checkRepos rs false w).world.locals r2.fullPath = .cloned o hd)
  | [], w, hw, _ => ⟨rfl, rfl, hw, rfl, fun q => Or.inl rfl, by simp⟩
  | r :: rest, w, hw, hr => by
    obtain ⟨c, hc⟩ := hr r (by simp)
    obtain ⟨e1, c1, rm1, ⟨o1, h1, hcl1⟩, mono1⟩ := checkRepo_calm w r c hw hc
    rcases hcr : checkRepo r false w with ⟨w1, res⟩
    rw [hcr] at e1 c1 rm1 hcl1 mono1
    have e1' : res = .ok none := e1
    have c1' : calm w1 := c1
    have rm1' : w1.remotes = w.remotes := rm1
    have hcl1' : w1.locals r.fullPath = .cloned o1 h1 := hcl1
    have mono1' : ∀ q, w1.locals q = w.locals q ∨ ∃ o hd, w1.locals q = .cloned o hd := mono1
    have hrest : ∀ r2 ∈ rest, ∃ c2, w1.remotes r2.URL = .ok c2 := by
      intro r2 hm
      rw [rm1']
      exact hr r2 (by simp [hm])
    obtain ⟨ev2, er2, ca2, rm2, mono2, cl2⟩ := checkRepos_calm rest w1 c1' hrest
    subst e1'
    have hunf : checkRepos (r :: rest) false w =
        ⟨(checkRepos rest false w1).world, [] ++ (checkRepos rest false w1).events,
          (checkRepos rest false w1).err⟩ := by
      simp [checkRepos, hcr]
    rw [hunf]
    refine ⟨by simp [ev2], er2, ca2, by rw [← rm1']; exact rm2, ?_, ?_⟩
    · intro q
      rcases mono2 q with hq1 | hq2
      · rw [hq1]
        exact mono1' q
      · right
        exact hq2
    · intro r2 hm
      rcases List.mem_cons.mp hm with hm1 | hm2
      · subst hm1
        rcases mono2 r2.fullPath with hq1 | hq2
        · rw [hq1, hcl1']
          exact ⟨o1, h1, rfl⟩
        · exact hq2
      · exact cl2 r2 hm2

/-- C3 amended: with initialEventFlag false the initial pass emits zero
events whenever every repository's local copy is missing or already at
its origin remote's head (in particular on a fresh start), and the
missing repositories are still cloned by the pass; a pre-existing local
copy behind its remote would instead produce a pull event, the pass
being the same code as a steady-state pass. -/
theorem C3_amended (s : Session) (w : GitWorld)
    (hflag : s.initialEvent = false) (hw : calm w)
    (hr : ∀ r ∈ s.repositories, ∃ c, w.remotes r.URL = .ok c) :
    (daemonRun s w []).events = [] ∧
      (checkRepos s.repositories s.initialEvent w).events = [] ∧
      (checkRepos s.repositories s.initialEvent w).err = none ∧
      ∀ r ∈ s.repositories, ∃ o hd,
        (checkRepos s.repositories s.initialEvent w).world.locals r.fullPath =
          .cloned o hd := by
  obtain ⟨h1, h2, h3, h4, h5, h6⟩ := checkRepos_calm s.repositories w hw hr
  rw [hflag]
  refine ⟨?_, h1, h2, h6⟩
  simp [daemonRun, hflag, h2, daemonLoop, h1]

/-- C3 amended, witnessed on a fresh start: no local copies, all remotes
reachable, flag unset, zero events and no error. -/
theorem C3_amended_witness :
    (daemonRun sessIEFalse worldFresh []).events = [] ∧
      (checkRepos sessIEFalse.repositories sessIEFalse.initialEvent worldFresh).events = [] ∧
      (checkRepos sessIEFalse.repositories sessIEFalse.initialEvent worldFresh).err = none := by
  have h := C3_amended sessIEFalse worldFresh rfl (fun p => Or.inl rfl)
    (fun r hm => ⟨5, rfl⟩)
  exact ⟨h.1, h.2.1, h.2.2.1⟩

/-- C6 amended: GetRepoDirectory resolves the four cited locators to repo;
in general a non-http locator is split on every colon; with exactly one
colon the remainder is parsed as a path and its final segment returned,
and with no colon the whole string is parsed as a path and its final
segment returned (with two or more colons the code instead falls back
to the field before the first colon). -/
theorem C6_amended (a t u : List Char)
    (hna : containsChar a ':' = false)
    (hpt : plainRel t)
    (hhttpa : (['h', 't', 't', 'p'].isPrefixOf (a ++ ':' :: t)) = false)
    (hpu : plainRel u)
    (hhttpu : (['h', 't', 't', 'p'].isPrefixOf u) = false) :
    GetRepoDirectory "https://a.com/user/repo" = .ok "repo" ∧
      GetRepoDirectory "https://a.com/user/namespace/repo" = .ok "repo" ∧
      GetRepoDirectory "git@a.com:user/repo" = .ok "repo" ∧
      GetRepoDirectory "git@a.com:user/s/u/b/d/i/r/repo" = .ok "repo" ∧
      GetRepoDirectoryCore (a ++ ':' :: t) = .ok (filepathBaseCore t) ∧
      GetRepoDirectoryCore u = .ok (filepathBaseCore u) := by
  refine ⟨rfl, rfl, rfl, rfl, ?_, ?_⟩
  · simp [GetRepoDirectoryCore, hhttpa, splitOnChar_append a t ':' hna,
      splitOnChar_no_sep t ':' hpt.1, urlPathCore_plain t hpt]
  · simp [GetRepoDirectoryCore, hhttpu, splitOnChar_no_sep u ':' hpu.1,
      urlPathCore_plain u hpu]

/-- C6 amended, witnessed on one scp-like locator with one colon and one
plain relative path with none. -/
theorem C6_amended_witness :
    GetRepoDirectory "git@a.com:user/repo" = .ok "repo" ∧
      GetRepoDirectoryCore ("git@b.org".data ++ ':' :: "x/y/z".data) =
        .ok (filepathBaseCore "x/y/z".data) ∧
      GetRepoDirectoryCore "local/path".data = .ok (filepathBaseCore "local/path".data) := by
  have h := C6_amended "git@b.org".data "x/y/z".data "local/path".data
    (by decide) (by decide) (by decide) (by decide) (by decide)
  exact ⟨h.2.2.1, h.2.2.2.2.1, h.2.2.2.2.2⟩

/-- C8 amended: a specification string is split on every hash; the URL is
the field before the first hash and the branch is the second field of
the split (the text between the first and second hash), with master as
the branch when there is no hash or the second field is empty. -/
theorem C8_amended (u b : String)
    (hu : containsChar u.data '#' = false)
    (hb : containsChar b.data '#' = false) (hbne : b ≠ "") :
    MakeRepositoryList ["url#dev"] = [{ URL := "url", Branch := "dev" }] ∧
      MakeRepositoryList ["url"] = [{ URL := "url", Branch := "master" }] ∧
      MakeRepositoryList [u] = [{ URL := u, Branch := "master" }] ∧
      MakeRepositoryList [String.mk (u.data ++ '#' :: b.data)] =
        [{ URL := u, Branch := b }] ∧
      MakeRepositoryList [String.mk (u.data ++ ['#'])] =
        [{ URL := u, Branch := "master" }] := by
  refine ⟨rfl, rfl, ?_, ?_, ?_⟩
  · simp [MakeRepositoryList, hu]
  · have hbdata : b.data ≠ [] := by
      intro hcon
      apply hbne
      rw [← stringMk_data b, hcon]
    simp [MakeRepositoryList, containsChar_append_cons u.data b.data '#',
      splitOnChar_append u.data b.data '#' hu, splitOnChar_no_sep b.data '#' hb,
      List.length_pos, hbdata, stringMk_data]
  · have hcontains : containsChar (u.data ++ ['#']) '#' = true := by
      have h := containsChar_append_cons u.data [] '#'
      simpa using h
    have hsplit : splitOnChar (u.data ++ ['#']) '#' = u.data :: [[]] := by
      have h := splitOnChar_append u.data [] '#' hu
      simpa [splitOnChar] using h
    simp [MakeRepositoryList, hcontains, hsplit, stringMk_data]

/-- C8 amended, witnessed on the shorthand forms for URL u and branch
dev. -/
theorem C8_amended_witness :
    MakeRepositoryList ["url#dev"] = [{ URL := "url", Branch := "dev" }] ∧
      MakeRepositoryList ["u"] = [{ URL := "u", Branch := "master" }] ∧
      MakeRepositoryList [String.mk ("u".data ++ '#' :: "dev".data)] =
        [{ URL := "u", Branch := "dev" }] ∧
      MakeRepositoryList [String.mk ("u".data ++ ['#'])] =
        [{ URL := "u", Branch := "master" }] := by
  have h := C8_amended "u" "dev" (by decide) (by decide) (by decide)
  exact ⟨h.1, h.2.2.1, h.2.2.2.1, h.2.2.2.2⟩

end Gitwatch
